import Mathlib

/-!
Verification of the download pipeline of the leetcode-fetch CLI.

The definitions below are shallow embeddings of functions from the
repository's `download.js`: the retry executor `retryAsync`, the argument
parser `parseArgs`, the markdown image rewriter `downloadImageFromMarkdown`,
the HTML-to-markdown transcoder `convertHtmlToMarkdown`, the per-item status
bookkeeping of `downloadProblem` / `downloadWorker`, the progress store
updates, and the chunked concurrency scheduler of `main`.

JavaScript strings are modelled as Lean `String` / `List Char`; machine
numbers that stay integral are modelled as `Nat` / `Int`; asynchronous
effects are modelled by explicit traces (lists of waits, counts of attempts)
or by small-step interleaving of atomic worker actions.
-/

set_option maxHeartbeats 1000000
set_option maxRecDepth 100000

/-! ## Retry executor (`retryAsync` in download.js, lines 237-246) -/

/-- Trace of one run of the retry loop: the returned value (`none` models the
JavaScript `undefined` fall-through when `retries = 0`), the list of backoff
waits performed in order (milliseconds), and how many times the operation was
invoked. -/
structure RetryTrace (ε α : Type) where
  result : Option (Except ε α)
  waits : List Nat
  calls : Nat

/-- Embedding of the loop of `retryAsync(fn, retries, delay)`: `fn i` is the
outcome of the i-th invocation of the operation (0-indexed, matching the JS
loop variable); the second argument is the current loop index, the third the
number of iterations still allowed.  On failure of a non-final iteration the
loop sleeps `delay * (i + 1)` before continuing; on failure of the final
iteration the error is re-thrown (returned as the trace's result). -/
def retryGo (fn : Nat → Except ε α) (delay : Nat) : Nat → Nat → RetryTrace ε α
  | _, 0 => ⟨none, [], 0⟩
  | i, r + 1 =>
    match fn i with
    | Except.ok a => ⟨some (Except.ok a), [], 1⟩
    | Except.error e =>
      if r = 0 then ⟨some (Except.error e), [], 1⟩
      else
        let t := retryGo fn delay (i + 1) r
        ⟨t.result, delay * (i + 1) :: t.waits, t.calls + 1⟩

/-- Embedding of `retryAsync` with the source's defaults
(`MAX_RETRIES = 3`, `RETRY_DELAY = 1000`). -/
def retryAsync (fn : Nat → Except ε α) (retries : Nat := 3) (delay : Nat := 1000) :
    RetryTrace ε α :=
  retryGo fn delay 0 retries

/-! ## Download argument parser (`parseArgs` in download.js, lines 309-380) -/

/-- Configuration produced by `parseArgs`; field names and defaults follow the
source's `config` object.  `concurrency` is an `Int` because JavaScript's
`parseInt` can produce negative values (which the guard rejects). -/
structure DLConfig where
  problemId : Option String
  formats : List String
  fetchTemplates : Bool
  fetchSolutions : Bool
  fetchOfficialSolution : Bool
  concurrency : Int
deriving DecidableEq

/-- Defaults set at the top of `parseArgs`. -/
def defaultDLConfig : DLConfig :=
  ⟨none, ["html", "md", "raw"], true, true, true, 5⟩

/-- Result of running the parser: a configuration, an early exit via
`--help` (`process.exit(0)`), or a thrown TypeError (`--formats` with no
following argument calls `.split` on `undefined`). -/
inductive ParseOutcome where
  | ok (c : DLConfig)
  | help
  | crash
deriving DecidableEq

/-- Whitespace accepted by JavaScript's `parseInt` / `trim` (ASCII part). -/
def isJsSpace (c : Char) : Bool :=
  c == ' ' || c == '\t' || c == '\n' || c == '\r' || c == '\x0b' || c == '\x0c'

/-- Numeric value of a decimal digit character. -/
def digitVal (c : Char) : Nat := c.toNat - 48

/-- Value of a list of decimal digit characters. -/
def digitsToNat (ds : List Char) : Nat := ds.foldl (fun a c => a * 10 + digitVal c) 0

/-- Embedding of `parseInt(x, 10)`: leading whitespace is skipped, an optional
sign is read, then the longest run of decimal digits; no digits yields `NaN`
(modelled as `none`).  `parseInt(undefined, 10)` coerces `undefined` to the
string "undefined" and yields `NaN`. -/
def jsParseInt (s : Option String) : Option Int :=
  let str := match s with | none => "undefined" | some v => v
  let cs := str.data.dropWhile isJsSpace
  let signed : Bool × List Char :=
    match cs with
    | '-' :: rest => (true, rest)
    | '+' :: rest => (false, rest)
    | l => (false, l)
  let ds := signed.2.takeWhile Char.isDigit
  if ds.isEmpty then none
  else
    let v : Int := Int.ofNat (digitsToNat ds)
    some (if signed.1 then -v else v)

/-- Embedding of `String.prototype.startsWith` (kernel-reducible form). -/
def strStartsWith (s pre : String) : Bool := pre.data.isPrefixOf s.data

/-- Embedding of `String.prototype.split` with a one-character separator
(kernel-reducible form; both split calls of the source use one-character
separators). -/
def splitOnChar (sep : Char) : List Char → List (List Char)
  | [] => [[]]
  | c :: rest =>
    let r := splitOnChar sep rest
    if c == sep then [] :: r
    else
      match r with
      | h :: t => (c :: h) :: t
      | [] => [[c]]

/-- JavaScript `String.prototype.trim` restricted to ASCII whitespace. -/
def jsTrim (s : String) : String :=
  ⟨((s.data.dropWhile isJsSpace).reverse.dropWhile isJsSpace).reverse⟩

/-- JavaScript `String.prototype.toLowerCase` restricted to its ASCII
behavior (character-wise lowering). -/
def jsToLower (s : String) : String := ⟨s.data.map Char.toLower⟩

/-- Embedding of `args[++i].split(',').map(f => f.trim().toLowerCase())`. -/
def splitFormats (v : String) : List String :=
  (splitOnChar ',' v.data).map (fun f => jsToLower (jsTrim ⟨f⟩))

/-- Embedding of the argument loop of `parseArgs`.  Each branch mirrors one
`else if` of the source; `--formats` and `--concurrency` consume the next
argument (`args[++i]`). -/
def parseArgsGo : List String → DLConfig → ParseOutcome
  | [], c => ParseOutcome.ok c
  | a :: rest, c =>
    if a = "--help" ∨ a = "-h" then ParseOutcome.help
    else if a = "--formats" ∨ a = "-f" then
      match rest with
      | [] => ParseOutcome.crash
      | v :: rest2 => parseArgsGo rest2 { c with formats := splitFormats v }
    else if a = "--no-templates" then parseArgsGo rest { c with fetchTemplates := false }
    else if a = "--no-solutions" then parseArgsGo rest { c with fetchSolutions := false }
    else if a = "--no-official" then parseArgsGo rest { c with fetchOfficialSolution := false }
    else if a = "--concurrency" ∨ a = "-c" then
      match rest with
      | [] =>
        match jsParseInt none with
        | some k =>
          if 0 < k then ParseOutcome.ok { c with concurrency := k } else ParseOutcome.ok c
        | none => ParseOutcome.ok c
      | v :: rest2 =>
        match jsParseInt (some v) with
        | some k =>
          if 0 < k then parseArgsGo rest2 { c with concurrency := k } else parseArgsGo rest2 c
        | none => parseArgsGo rest2 c
    else if ¬ (strStartsWith a ("-")) then parseArgsGo rest { c with problemId := some a }
    else parseArgsGo rest c

/-- Embedding of `parseArgs` on an explicit argument list. -/
def parseArgs (args : List String) : ParseOutcome :=
  parseArgsGo args defaultDLConfig

/-! ## Problem records and filesystem layout
(`listProblems`, `sanitizeFolderName`, `downloadProblem` in download.js) -/

/-- Item of the catalog as built by `listProblems` (the `companies` field is
not needed by any claim and is omitted). -/
structure Problem where
  id : String
  name : String
  slug : String
  difficulty : String
  locked : Bool
  tags : List String
deriving DecidableEq

/-- Replacement applied per character by the first regex of
`sanitizeFolderName`: every character outside `[a-zA-Z0-9]` becomes a dash. -/
def dashify (c : Char) : Char := if c.isAlphanum then c else '-'

/-- Embedding of the second replace of `sanitizeFolderName`: collapse runs
of dashes to a single dash. -/
def collapseDashes : List Char → List Char
  | [] => []
  | [c] => [c]
  | a :: b :: rest =>
    if a = '-' ∧ b = '-' then collapseDashes (b :: rest)
    else a :: collapseDashes (b :: rest)

/-- Embedding of the third replace of `sanitizeFolderName` (anchored dash
removal): remove one leading and one trailing dash. -/
def trimEdgeDashes (l : List Char) : List Char :=
  let l1 := match l with
    | '-' :: rest => rest
    | other => other
  match l1.reverse with
  | '-' :: rest => rest.reverse
  | _ => l1

/-- Embedding of `sanitizeFolderName` (download.js lines 766-768). -/
def sanitizeFolderName (s : String) : String :=
  ⟨trimEdgeDashes (collapseDashes (s.data.map dashify))⟩

/-- Embedding of `('0000' + id).slice(-4)`: the last four characters of the
argument (the whole argument when shorter than four characters). -/
def sliceLast4 (s : String) : String :=
  ⟨(s.data.reverse.take 4).reverse⟩

/-- Embedding of `problem.tags[0] || 'uncategorized'` (an empty first tag is
falsy in JavaScript). -/
def firstTag (tags : List String) : String :=
  match tags with
  | [] => "uncategorized"
  | t :: _ => if t = "" then "uncategorized" else t

/-- Embedding of the `problemFolder` template literal of `downloadProblem`
(line 822). -/
def problemFolderName (p : Problem) : String :=
  sliceLast4 ("0000" ++ p.id) ++ "_" ++ p.difficulty ++ "_" ++
    jsToLower (sanitizeFolderName p.name)

/-- Components of `problemPath = path.join(outputFolder, tagFolder,
problemFolder)` (line 823). -/
def problemPathComponents (outputFolder : String) (p : Problem) : List String :=
  [outputFolder, sanitizeFolderName (firstTag p.tags), problemFolderName p]

/-- Folder component as the specification describes it, for comparison with
the source's `problemFolderName`: the full numeric id zero-padded to 4 digits
followed by the difficulty and the slug identifier. -/
def specPadTo4 (id : String) : String :=
  if 4 ≤ id.length then id else ⟨List.replicate (4 - id.length) '0'⟩ ++ id

/-- Storage folder name claimed by the specification (id zero-padded, then
difficulty, then the slug). -/
def claimedProblemFolder (p : Problem) : String :=
  specPadTo4 p.id ++ "_" ++ p.difficulty ++ "_" ++ p.slug

/-! ## Per-item download status and completion verdict
(`downloadProblem`, `downloadWorker` in download.js) -/

/-- Counts accumulated in `downloadStatus` by `downloadProblem` (the
`languages`/`formats` bookkeeping fields are omitted; only the counts feed
the completion verdict). -/
structure DownloadStatus where
  descriptionSuccess : Bool
  templatesCount : Nat
  templatesTotal : Nat
  officialCount : Nat
  officialTotal : Nat
  communityCount : Nat
  communityTotal : Nat
deriving DecidableEq

/-- Embedding of the `isFullyComplete` expression of `downloadWorker`
(lines 1387-1390). -/
def isFullyComplete (cfg : DLConfig) (st : DownloadStatus) : Bool :=
  st.descriptionSuccess &&
  (!cfg.fetchTemplates || st.templatesCount == st.templatesTotal) &&
  (!cfg.fetchOfficialSolution || st.officialCount == st.officialTotal) &&
  (!cfg.fetchSolutions || st.communityCount == st.communityTotal)

/-- Embedding of the `failureReasons` accumulation of `downloadWorker`
(lines 1400-1413), in source order. -/
def failureReasons (cfg : DLConfig) (st : DownloadStatus) : List String :=
  let tc := st.templatesCount
  let tt := st.templatesTotal
  let oc := st.officialCount
  let ot := st.officialTotal
  let cc := st.communityCount
  let ct := st.communityTotal
  (if !st.descriptionSuccess then ["Description download failed"] else []) ++
  (if cfg.fetchTemplates && decide (tc < tt) then
    ["Templates incomplete: " ++ toString tc ++ "/" ++ toString tt] else []) ++
  (if cfg.fetchOfficialSolution && decide (oc < ot) then
    ["Official solution incomplete: " ++ toString oc ++ "/" ++ toString ot] else []) ++
  (if cfg.fetchSolutions && decide (cc < ct) then
    ["Community solutions incomplete: " ++ toString cc ++ "/" ++ toString ct] else [])

/-- Outcome of `getDiscussSolution` for one language variant: `success`,
`no_solution`, or `error` (download.js lines 570-654). -/
inductive CommunityOutcome where
  | success
  | noSolution
  | fetchError
deriving DecidableEq

/-- One discovered language variant together with what the remote returned
for it during this item's run: whether `codeSnippets` held code for it, and
the community-solution outcome. -/
structure LangFetch where
  name : String
  hasTemplateCode : Bool
  community : CommunityOutcome
deriving DecidableEq

/-- Embedding of one iteration of the language loop of `downloadProblem`
(lines 925-955): a present template bumps `templates.count`; a community
`success` bumps `communitySolutions.count`; a community `no_solution`
decrements `communitySolutions.total`; an `error` outcome changes nothing. -/
def langStep (cfg : DLConfig) (slugPresent : Bool) (st : DownloadStatus) (l : LangFetch) :
    DownloadStatus :=
  let st1 :=
    if cfg.fetchTemplates && l.hasTemplateCode then
      { st with templatesCount := st.templatesCount + 1 }
    else st
  if cfg.fetchSolutions && slugPresent then
    match l.community with
    | CommunityOutcome.success => { st1 with communityCount := st1.communityCount + 1 }
    | CommunityOutcome.noSolution => { st1 with communityTotal := st1.communityTotal - 1 }
    | CommunityOutcome.fetchError => st1
  else st1

/-- Embedding of the official-solution block of `downloadProblem`
(lines 901-917): requested and present gives `1/1`; requested and absent
resets the total to zero (`0/0`); not requested leaves `0/0`. -/
def officialCounts (cfg : DLConfig) (slugPresent officialAvailable : Bool) : Nat × Nat :=
  if cfg.fetchOfficialSolution && slugPresent then
    if officialAvailable then (1, 1) else (0, 0)
  else (0, 0)

/-- Status produced by `downloadProblem` for an item whose description fetch
succeeded: totals start at the discovered variant count (lines 919-920),
then the language loop runs, and `description.success` is set (line 958). -/
def subResourceStatus (cfg : DLConfig) (slugPresent officialAvailable : Bool)
    (langs : List LangFetch) : DownloadStatus :=
  let off := officialCounts cfg slugPresent officialAvailable
  let init : DownloadStatus :=
    ⟨true, 0, langs.length, off.1, off.2, 0, langs.length⟩
  langs.foldl (langStep cfg slugPresent) init

/-! ## Empty-description classification and worker error handling
(`downloadProblem` lines 834-845, `downloadWorker` lines 1435-1448) -/

/-- Message thrown for empty content on a locked problem with a premium
user. -/
def sessionExpiredPremiumMsg : String :=
  "SESSION_EXPIRED: Download premium content failed. Please re-login: leetcode-fetch logout && leetcode-fetch login"

/-- Message thrown for empty content on a locked problem without premium. -/
def premiumRequiredMsg : String := "Premium problem requires premium account"

/-- Message thrown for empty content on a non-locked problem. -/
def sessionExpiredMsg : String :=
  "SESSION_EXPIRED: Download failed. Session may have expired. Please re-login: leetcode-fetch logout && leetcode-fetch login"

/-- Embedding of the `!questionData.content` branch of `downloadProblem`
(lines 834-845), choosing which error message is thrown.  This code is only
reached when session cookies are present, because `getProblemDescription`
already threw otherwise. -/
def classifyEmptyContent (locked isPremiumUser : Bool) : String :=
  if locked && isPremiumUser then sessionExpiredPremiumMsg
  else if locked then premiumRequiredMsg
  else sessionExpiredMsg

/-- Tag tested by `downloadWorker`'s catch block. -/
def sessionExpiredTag : String := "SESSION_EXPIRED:"

/-- What `downloadWorker`'s catch block does with a thrown error: abort the
whole run (set `shouldStop`, persist, `process.exit(1)`) or record a
per-item failure and continue. -/
inductive WorkerErrorAction where
  | abortRun
  | recordFailure
deriving DecidableEq

/-- Embedding of the dispatch in `downloadWorker`'s catch block
(lines 1436-1448). -/
def handleWorkerError (msg : String) : WorkerErrorAction :=
  if strStartsWith msg sessionExpiredTag then WorkerErrorAction.abortRun
  else WorkerErrorAction.recordFailure

/-! ## Progress store (`main` in download.js, lines 1320-1471)

Workers mutate `completedProblems` / `failedProblems` in the synchronous
block between two awaits (lines 1387-1427), so under the single-threaded
event loop every per-item update is atomic; a run is therefore modelled as a
fold of per-item updates in some serialization order. -/

/-- Failure detail recorded in `failedProblems[problem.id]` (the timestamp
and status snapshot are opaque strings here). -/
structure FailureDetail where
  name : String
  slug : String
  reasons : List String
  lastAttempt : String
deriving DecidableEq

/-- Progress data persisted in `.download-progress.json`: the completed set
(a JS `Set`, kept in insertion order) and the failed map (a JS object keyed
by item id). -/
structure ProgressData where
  completed : List String
  failed : List (String × FailureDetail)
deriving DecidableEq

/-- Embedding of `Set.prototype.add`: append if absent. -/
def setAdd (l : List String) (x : String) : List String :=
  if x ∈ l then l else l ++ [x]

/-- Embedding of `delete failedProblems[id]`. -/
def mapDelete (m : List (String × FailureDetail)) (k : String) :
    List (String × FailureDetail) :=
  m.filter (fun p => !(p.1 == k))

/-- Embedding of `failedProblems[id] = detail`: overwrite in place or
append. -/
def mapPut (m : List (String × FailureDetail)) (k : String) (v : FailureDetail) :
    List (String × FailureDetail) :=
  if m.any (fun p => p.1 == k) then
    m.map (fun p => if p.1 == k then (k, v) else p)
  else m ++ [(k, v)]

/-- Embedding of the success/failure bookkeeping of `downloadWorker`
(lines 1392-1427): a fully complete item joins the completed set and leaves
the failed map; an incomplete item is recorded in the failed map. -/
def recordResult (st : ProgressData) (id : String) (fullyComplete : Bool)
    (detail : FailureDetail) : ProgressData :=
  if fullyComplete then
    ⟨setAdd st.completed id, mapDelete st.failed id⟩
  else
    ⟨st.completed, mapPut st.failed id detail⟩

/-- Serialized run of `downloadWorker`'s bookkeeping over a list of item ids:
`outcome id` tells whether that item's download came back fully complete,
`detail id` is the failure detail it would record. -/
def processAll (outcome : String → Bool) (detail : String → FailureDetail)
    (ids : List String) (st : ProgressData) : ProgressData :=
  ids.foldl (fun s id => recordResult s id (outcome id) (detail id)) st

/-- Embedding of the dispatch filter of `main` (lines 1354-1375): locked
items without premium are skipped, items already in the completed set are
counted as already downloaded; the rest are dispatched. -/
def problemsToDownload (problems : List Problem) (isPremiumUser : Bool)
    (completedSet : List String) : List Problem :=
  problems.filter (fun p =>
    !(p.locked && !isPremiumUser) && !(completedSet.contains p.id))

/-- Disjointness invariant of the progress store: no id is simultaneously in
the completed set and a key of the failed map. -/
def progressDisjoint (st : ProgressData) : Prop :=
  ∀ id ∈ st.completed, id ∉ st.failed.map Prod.fst

instance (st : ProgressData) : Decidable (progressDisjoint st) := by
  unfold progressDisjoint
  infer_instance

/-! ## Chunked concurrency scheduler with abort
(`downloadWorker` catch block and the chunk loop of `main`, lines 1435-1471)

Each worker is a sequence of atomic actions separated by awaits: the
download work, then the progress-file write.  A worker that catches a
SESSION_EXPIRED error instead writes the progress snapshot and calls
`process.exit(1)`, which halts the whole process immediately: actions of
other workers scheduled after that point never run.  A chunk's execution is
an arbitrary interleaving (schedule) of its workers' actions. -/

/-- Atomic actions a worker performs. -/
inductive WStep where
  | work
  | persistResult
  | persistSnapshot
  | exitStep
deriving DecidableEq

/-- A worker: the item it processes and its remaining actions. -/
structure WorkerProg where
  itemId : String
  steps : List WStep
deriving DecidableEq

/-- Worker for an item whose download succeeds or fails per-item: it does its
work, then persists its individual result to the progress file. -/
def normalWorker (id : String) : WorkerProg :=
  ⟨id, [WStep.work, WStep.persistResult]⟩

/-- Worker for an item that raises a SESSION_EXPIRED AuthError: it works,
persists the progress snapshot, then calls `process.exit(1)`. -/
def fatalWorker (id : String) : WorkerProg :=
  ⟨id, [WStep.work, WStep.persistSnapshot, WStep.exitStep]⟩

/-- Observable run state: which items have persisted an individual result,
whether the abort snapshot was written, whether the process has exited, and
how many chunks were dispatched. -/
structure RunState where
  persisted : List String
  snapshotSaved : Bool
  exited : Bool
  chunksDispatched : Nat
deriving DecidableEq

/-- Effect of one atomic worker action on the run state. -/
def execStep (id : String) (st : WStep) (s : RunState) : RunState :=
  match st with
  | WStep.work => s
  | WStep.persistResult => { s with persisted := s.persisted ++ [id] }
  | WStep.persistSnapshot => { s with snapshotSaved := true }
  | WStep.exitStep => { s with exited := true }

/-- One scheduling step inside a chunk: worker `j` (if it exists, still has
actions, and the process has not exited) runs its next atomic action. -/
def chunkStep (ws : List WorkerProg) (s : RunState) (j : Nat) :
    List WorkerProg × RunState :=
  if s.exited then (ws, s)
  else
    match ws.get? j with
    | none => (ws, s)
    | some w =>
      match w.steps with
      | [] => (ws, s)
      | st :: rest => (ws.set j ⟨w.itemId, rest⟩, execStep w.itemId st s)

/-- Execution of one chunk under a schedule (a list of worker indices). -/
def runChunk (ws : List WorkerProg) (sched : List Nat) (s : RunState) : RunState :=
  (sched.foldl (fun p j => chunkStep p.1 p.2 j) (ws, s)).2

/-- Execution of the chunk loop of `main` (lines 1467-1471): chunks run
strictly one after another; once the process has exited no further chunk is
dispatched. -/
def runChunks (chunks : List (List WorkerProg × List Nat)) (s : RunState) : RunState :=
  chunks.foldl
    (fun s c =>
      if s.exited then s
      else runChunk c.1 c.2 { s with chunksDispatched := s.chunksDispatched + 1 })
    s

/-- Initial run state. -/
def initRunState : RunState := ⟨[], false, false, 0⟩

/-! ## Markdown image rewriter (`downloadImageFromMarkdown`, lines 656-699)

A markdown document is modelled as its sequence of inline segments; the
image-reference regex of the source matches exactly the image segments whose
URL starts with http or https.  The download performed for each match
(through `retryAsync`, with its own network outcomes) is abstracted by an
oracle giving the overall success of the k-th download attempt of the
scan. -/

/-- Inline markdown segment: plain text, or an image reference with alt text
and URL. -/
inductive MdSeg where
  | text (s : String)
  | image (alt : String) (url : String)
deriving DecidableEq

/-- URL condition of the image regex (http or https scheme). -/
def isHttpUrl (u : String) : Bool :=
  strStartsWith u ("http://") || strStartsWith u ("https://")

/-- Embedding of the extension choice (lines 672-674): the substring of the
URL's last path segment from its last dot, or `.png` when that segment has
no dot. -/
def extOf (u : String) : String :=
  let fileName : List Char := ((splitOnChar '/' u.data).getLast?).getD []
  if fileName.contains '.' then
    "." ++ (⟨((splitOnChar '.' fileName).getLast?).getD []⟩ : String)
  else ".png"

/-- Embedding of `Map.prototype.set`: overwrite in place or append. -/
def imapSet (m : List (String × String)) (k v : String) : List (String × String) :=
  if m.any (fun p => p.1 == k) then
    m.map (fun p => if p.1 == k then (k, v) else p)
  else m ++ [(k, v)]

/-- Lookup with default in the URL map. -/
def imapGetD (m : List (String × String)) (k d : String) : String :=
  match m.find? (fun p => p.1 == k) with
  | some p => p.2
  | none => d

/-- State of the scanning loop of `downloadImageFromMarkdown`: the URL map,
the next image filename index, how many download attempts (`retryAsync`
invocations) have been made, and the filenames written. -/
structure ImgScanState where
  imageMap : List (String × String)
  imageIndex : Nat
  attempts : Nat
  filesWritten : List String
deriving DecidableEq

/-- Embedding of one iteration of the `while ((match = imgRegex.exec(...)))`
loop (lines 663-688): every http(s) image occurrence — duplicates included —
triggers one download attempt; success stores the sequential local filename
in the map, failure stores the original URL. -/
def imgScanStep (oracle : Nat → Bool) (relPath : String) (st : ImgScanState)
    (seg : MdSeg) : ImgScanState :=
  match seg with
  | MdSeg.text _ => st
  | MdSeg.image _ u =>
    if isHttpUrl u then
      if oracle st.attempts then
        let name := toString st.imageIndex ++ extOf u
        ⟨imapSet st.imageMap u (relPath ++ "/" ++ name), st.imageIndex + 1,
          st.attempts + 1, st.filesWritten ++ [name]⟩
      else
        ⟨imapSet st.imageMap u u, st.imageIndex, st.attempts + 1, st.filesWritten⟩
    else st

/-- Embedding of `downloadImageFromMarkdown`: scan all image occurrences in
order, then substitute every occurrence of each scanned URL by its final map
entry (the `imageMap.forEach` replace loop, lines 690-696). -/
def downloadImageFromMarkdown (oracle : Nat → Bool) (relPath : String)
    (doc : List MdSeg) : List MdSeg × ImgScanState :=
  let st := doc.foldl (imgScanStep oracle relPath) ⟨[], 0, 0, []⟩
  (doc.map (fun seg =>
    match seg with
    | MdSeg.image alt u => MdSeg.image alt (imapGetD st.imageMap u u)
    | other => other), st)

/-- Http(s) image URL occurrences of a document, in order, duplicates
included. -/
def httpImageUrls (doc : List MdSeg) : List String :=
  doc.filterMap (fun seg =>
    match seg with
    | MdSeg.image _ u => if isHttpUrl u then some u else none
    | MdSeg.text _ => none)

/-! ## HTML-to-markdown transcoder (`convertHtmlToMarkdown`, lines 1101-1175)

The source is a chain of global regex replaces over the HTML string.  Each
replace is embedded as a left-to-right scan: at each position the pattern is
tried; on a match the replacement text is emitted (and never rescanned, as
with JavaScript `String.prototype.replace`) and scanning resumes after the
matched text, otherwise one character is copied.  Scans carry a fuel equal
to the input length; every match consumes at least one character, so this
fuel is always sufficient. -/

/-- Generic scan driver for one global regex replace.  `m s` returns the
replacement text and the remainder after the match when the pattern matches
at the head of `s`. -/
def scanG (m : List Char → Option (List Char × List Char)) :
    Nat → List Char → List Char
  | 0, s => s
  | _ + 1, [] => []
  | fuel + 1, c :: rest =>
    match m (c :: rest) with
    | some (out, rem) => out ++ scanG m fuel rem
    | none => c :: scanG m fuel rest

/-- Run one global replace over a whole string of characters. -/
def runScan (m : List Char → Option (List Char × List Char))
    (s : List Char) : List Char :=
  scanG m s.length s

/-- First occurrence of `needle` in the list: the part before it and the part
after it. -/
def splitFirstL (needle : List Char) : List Char → Option (List Char × List Char)
  | [] => none
  | c :: rest =>
    if needle.isPrefixOf (c :: rest) then some ([], (c :: rest).drop needle.length)
    else
      match splitFirstL needle rest with
      | some (pre, post) => some (c :: pre, post)
      | none => none

/-- Matcher for a pattern `<name ...attrs...>content</name>` where the open
tag allows attribute characters up to the closing angle bracket and the
content is non-greedy up to the first closing literal.  The match is
replaced by `wrapL ++ inner content ++ wrapR`. -/
def mPairAttrs (openName closeLit wrapL wrapR : List Char)
    (inner : List Char → List Char) (s : List Char) :
    Option (List Char × List Char) :=
  if openName.isPrefixOf s then
    let afterOpen := s.drop openName.length
    let attrs := afterOpen.takeWhile (fun c => !(c == '>'))
    match afterOpen.drop attrs.length with
    | '>' :: body =>
      match splitFirstL closeLit body with
      | some (content, rem) => some (wrapL ++ inner content ++ wrapR, rem)
      | none => none
    | _ => none
  else none

/-- Matcher for a pattern with a literal open tag (no attributes), non-greedy
content, and a literal close tag. -/
def mPairExact (openLit closeLit wrapL wrapR : List Char)
    (inner : List Char → List Char) (s : List Char) :
    Option (List Char × List Char) :=
  if openLit.isPrefixOf s then
    match splitFirstL closeLit (s.drop openLit.length) with
    | some (content, rem) => some (wrapL ++ inner content ++ wrapR, rem)
    | none => none
  else none

/-- Matcher for an open tag with attributes, `<name ...attrs...>`, replaced
by a fixed text. -/
def mOpenTag (openName repl : List Char) (s : List Char) :
    Option (List Char × List Char) :=
  if openName.isPrefixOf s then
    let afterOpen := s.drop openName.length
    let attrs := afterOpen.takeWhile (fun c => !(c == '>'))
    match afterOpen.drop attrs.length with
    | '>' :: rem => some (repl, rem)
    | _ => none
  else none

/-- Matcher for a fixed literal replaced by a fixed text. -/
def mLit (lit repl : List Char) (s : List Char) : Option (List Char × List Char) :=
  if lit.isPrefixOf s then some (repl, s.drop lit.length) else none

/-- Matcher for the line-break tag `<br>` with optional whitespace and an
optional self-closing slash, replaced by a newline. -/
def mBr (s : List Char) : Option (List Char × List Char) :=
  if ("<br".data).isPrefixOf s then
    let after := s.drop 3
    let sp := after.takeWhile isJsSpace
    match after.drop sp.length with
    | '/' :: '>' :: rem => some (['\n'], rem)
    | '>' :: rem => some (['\n'], rem)
    | _ => none
  else none

/-- Matcher for any remaining tag `<` followed by one or more characters
other than the closing angle bracket, removed entirely. -/
def mAnyTag (s : List Char) : Option (List Char × List Char) :=
  match s with
  | '<' :: rest =>
    let body := rest.takeWhile (fun c => !(c == '>'))
    if body.isEmpty then none
    else
      match rest.drop body.length with
      | '>' :: rem => some ([], rem)
      | _ => none
  | _ => none

/-- Hexadecimal digit test for the numeric character-reference regex. -/
def isHexChar (c : Char) : Bool :=
  c.isDigit || (decide (97 ≤ c.toNat) && decide (c.toNat ≤ 102)) ||
    (decide (65 ≤ c.toNat) && decide (c.toNat ≤ 70))

/-- Value of a hexadecimal digit character. -/
def hexDigitVal (c : Char) : Nat :=
  if c.isDigit then c.toNat - 48
  else if decide (97 ≤ c.toNat) then c.toNat - 87
  else c.toNat - 55

/-- Value of a list of hexadecimal digit characters. -/
def hexToNat (ds : List Char) : Nat := ds.foldl (fun a c => a * 16 + hexDigitVal c) 0

/-- Embedding of `String.fromCharCode`: the code is reduced modulo 2^16; a
resulting lone surrogate (invalid as a Lean `Char`) degrades to the null
character. -/
def jsFromCharCode (n : Nat) : Char := Char.ofNat (n % 65536)

/-- Matcher for hexadecimal numeric character references `&#xABC;`. -/
def mHexRef (s : List Char) : Option (List Char × List Char) :=
  if ("&#x".data).isPrefixOf s then
    let after := s.drop 3
    let ds := after.takeWhile isHexChar
    if ds.isEmpty then none
    else
      match after.drop ds.length with
      | ';' :: rem => some ([jsFromCharCode (hexToNat ds)], rem)
      | _ => none
  else none

/-- Matcher for decimal numeric character references `&#123;` (the source
applies this after the hexadecimal form). -/
def mDecRef (s : List Char) : Option (List Char × List Char) :=
  if ("&#".data).isPrefixOf s then
    let after := s.drop 2
    let ds := after.takeWhile Char.isDigit
    if ds.isEmpty then none
    else
      match after.drop ds.length with
      | ';' :: rem => some ([jsFromCharCode (digitsToNat ds)], rem)
      | _ => none
  else none

/-- Matcher collapsing three or more consecutive newlines to exactly two
(one blank line). -/
def mCollapse (s : List Char) : Option (List Char × List Char) :=
  match s with
  | '\n' :: '\n' :: '\n' :: rest =>
    some (['\n', '\n'], rest.dropWhile (fun c => c == '\n'))
  | _ => none

/-- Positions (0-indexed) at which `key` occurs in the list. -/
def occsFrom (key : List Char) : List Char → Nat → List Nat
  | [], _ => []
  | c :: rest, i =>
    (if key.isPrefixOf (c :: rest) then [i] else []) ++ occsFrom key rest (i + 1)

/-- Source-URL capture of the image-tag regex: inside the tag body (which
contains no closing angle bracket) the greedy backtracking scan finds the
rightmost `src="` preceded by at least one character whose value is a
non-empty run up to a closing double quote. -/
def imgSrcCapture (body : List Char) : Option (List Char) :=
  let key := ("src=".data) ++ ['"']
  (((occsFrom key body 0).filter (fun p => decide (1 ≤ p))).reverse).findSome?
    (fun p =>
      let afterKey := body.drop (p + key.length)
      let cap := afterKey.takeWhile (fun c => !(c == '"'))
      if cap.isEmpty then none
      else
        match afterKey.drop cap.length with
        | '"' :: _ => some cap
        | _ => none)

/-- Matcher for the image tag replace of `convertHtmlToMarkdown`
(lines 1118-1121): the whole tag becomes a markdown image whose target is
the mapped local path, or the original source when unmapped. -/
def mImg (imageMap : List (String × String)) (s : List Char) :
    Option (List Char × List Char) :=
  if ("<img".data).isPrefixOf s then
    let after := s.drop 4
    let body := after.takeWhile (fun c => !(c == '>'))
    if body.isEmpty then none
    else
      match after.drop body.length with
      | '>' :: rem =>
        match imgSrcCapture body with
        | some src =>
          let srcStr : String := ⟨src⟩
          some (("![image](".data) ++ (imapGetD imageMap srcStr srcStr).data ++ [')'], rem)
        | none => none
      | _ => none
  else none

/-- Inner processing of inline code spans (lines 1122-1128): superscripts
become caret-prefixed, subscripts underscore-prefixed, remaining tags are
stripped. -/
def codeInner (content : List Char) : List Char :=
  runScan mAnyTag
    (runScan (mPairExact ("<sub>".data) ("</sub>".data) ['_'] [] id)
      (runScan (mPairExact ("<sup>".data) ("</sup>".data) ['^'] [] id) content))

/-- Cleaning applied to an extracted code block (lines 1107-1110): strong
and em wrappers are unwrapped, then every remaining tag is stripped. -/
def cleanPre (content : List Char) : List Char :=
  runScan mAnyTag
    (runScan (mPairExact ("<em>".data) ("</em>".data) [] [] id)
      (runScan (mPairAttrs ("<strong".data) ("</strong>".data) [] [] id) content))

/-- Fenced code block built from an extracted block's cleaned content
(line 1112). -/
def fenceBlock (content : List Char) : String :=
  "```\n" ++ String.mk (cleanPre content) ++ "\n```"

/-- Placeholder token for the i-th extracted block. -/
def placeholderFor (i : Nat) : List Char :=
  ("___PRE_BLOCK_" ++ toString i ++ "___").data

/-- Matcher of the extraction regex (line 1105): first alternative
`<pre><code>content</code></pre>`, second alternative `<pre>content</pre>`,
tried in that order at each position; returns the raw captured content and
the remainder. -/
def mPreAlt2 (s : List Char) : Option (List Char × List Char) :=
  if ("<pre>".data).isPrefixOf s then splitFirstL ("</pre>".data) (s.drop 5)
  else none

/-- Combined alternation matcher for the block-extraction regex. -/
def mPreMatch (s : List Char) : Option (List Char × List Char) :=
  if ("<pre><code>".data).isPrefixOf s then
    match splitFirstL ("</code></pre>".data) (s.drop 11) with
    | some pr => some pr
    | none => mPreAlt2 s
  else mPreAlt2 s

/-- Extraction pass of `convertHtmlToMarkdown` (lines 1101-1115): each
matched block is replaced by its placeholder token and its fenced cleaned
content is collected in order. -/
def extractPreGo : Nat → Nat → List Char → List Char × List String
  | 0, _, s => (s, [])
  | _ + 1, _, [] => ([], [])
  | fuel + 1, k, c :: rest =>
    match mPreMatch (c :: rest) with
    | some (content, rem) =>
      let t := extractPreGo fuel (k + 1) rem
      (placeholderFor k ++ t.1, fenceBlock content :: t.2)
    | none =>
      let t := extractPreGo fuel k rest
      (c :: t.1, t.2)

/-- Extraction entry point on a string. -/
def extractPre (html : String) : List Char × List String :=
  extractPreGo html.data.length 0 html.data

/-- Raw contents of the blocks the extraction regex matches, in occurrence
order (reference scan used to state the ordering property of the
extraction). -/
def preContentsGo : Nat → List Char → List (List Char)
  | 0, _ => []
  | _ + 1, [] => []
  | fuel + 1, c :: rest =>
    match mPreMatch (c :: rest) with
    | some (content, rem) => content :: preContentsGo fuel rem
    | none => preContentsGo fuel rest

/-- Raw block contents of a document, in order. -/
def preContents (html : String) : List (List Char) :=
  preContentsGo html.data.length html.data

/-- JavaScript trim (both ends, ASCII whitespace) on a character list. -/
def listTrim (l : List Char) : List Char :=
  ((l.dropWhile isJsSpace).reverse.dropWhile isJsSpace).reverse

/-- Replacement chain applied between extraction and re-insertion
(lines 1117-1168), in source order: images, inline code, strong, em, list
wrappers, list items, paragraphs, line breaks, headings, generic wrappers,
named entities, numeric character references, remaining-tag stripping, blank
line collapsing, and a final trim. -/
def middlePipeline (imageMap : List (String × String)) (s0 : List Char) : List Char :=
  let s1 := runScan (mImg imageMap) s0
  let s2 := runScan (mPairExact ("<code>".data) ("</code>".data) ['`'] ['`'] codeInner) s1
  let s3 := runScan (mPairAttrs ("<strong".data) ("</strong>".data) ("**".data) ("**".data) id) s2
  let s4 := runScan (mPairExact ("<em>".data) ("</em>".data) ['*'] ['*'] id) s3
  let s5 := runScan (mOpenTag ("<ul".data) []) s4
  let s6 := runScan (mLit ("</ul>".data) []) s5
  let s7 := runScan (mOpenTag ("<ol".data) []) s6
  let s8 := runScan (mLit ("</ol>".data) []) s7
  let s9 := runScan (mPairExact ("<li>".data) ("</li>".data) ("- ".data) ['\n'] id) s8
  let s10 := runScan (mOpenTag ("<p".data) ['\n']) s9
  let s11 := runScan (mLit ("</p>".data) ['\n']) s10
  let s12 := runScan mBr s11
  let s13 := runScan (mPairAttrs ("<h1".data) ("</h1>".data) ("# ".data) ['\n'] id) s12
  let s14 := runScan (mPairAttrs ("<h2".data) ("</h2>".data) ("## ".data) ['\n'] id) s13
  let s15 := runScan (mPairAttrs ("<h3".data) ("</h3>".data) ("### ".data) ['\n'] id) s14
  let s16 := runScan (mOpenTag ("<div".data) []) s15
  let s17 := runScan (mLit ("</div>".data) []) s16
  let s18 := runScan (mOpenTag ("<span".data) []) s17
  let s19 := runScan (mLit ("</span>".data) []) s18
  let s20 := runScan (mOpenTag ("<font".data) []) s19
  let s21 := runScan (mLit ("</font>".data) []) s20
  let s22 := runScan (mLit ("&nbsp;".data) [' ']) s21
  let s23 := runScan (mLit ("&lt;".data) ['<']) s22
  let s24 := runScan (mLit ("&gt;".data) ['>']) s23
  let s25 := runScan (mLit ("&le;".data) ("<=".data)) s24
  let s26 := runScan (mLit ("&ge;".data) (">=".data)) s25
  let s27 := runScan (mLit ("&amp;".data) ['&']) s26
  let s28 := runScan (mLit ("&quot;".data) ['"']) s27
  let s29 := runScan (mLit ("&#39;".data) ['\'']) s28
  let s30 := runScan (mLit ("&times;".data) ['×']) s29
  let s31 := runScan (mLit ("&divide;".data) ['÷']) s30
  let s32 := runScan mHexRef s31
  let s33 := runScan mDecRef s32
  let s34 := runScan mAnyTag s33
  let s35 := runScan mCollapse s34
  listTrim s35

/-- Embedding of the string form of `String.prototype.replace` (used for the
placeholder re-insertion, line 1171): only the first occurrence is
replaced. -/
def replaceFirstStr (needle repl hay : String) : String :=
  match splitFirstL needle.data hay.data with
  | some (pre, post) => ⟨pre ++ repl.data ++ post⟩
  | none => hay

/-- Re-insertion loop of `convertHtmlToMarkdown` (lines 1170-1172). -/
def reinsertGo : List String → Nat → String → String
  | [], _, md => md
  | b :: rest, i, md => reinsertGo rest (i + 1) (replaceFirstStr ⟨placeholderFor i⟩ b md)

/-- Embedding of `convertHtmlToMarkdown`: extract code blocks to
placeholders, run the replacement chain, re-insert the fenced blocks. -/
def convertHtmlToMarkdown (imageMap : List (String × String)) (html : String) : String :=
  let ext := extractPre html
  let md := middlePipeline imageMap ext.1
  reinsertGo ext.2 0 ⟨md⟩

/-! ## Supporting lemmas for the retry executor -/

/-- Number of operation calls is bounded by the allowed iterations. -/
theorem retryGo_calls_le (fn : Nat → Except ε α) (delay : Nat) :
    ∀ r i, (retryGo fn delay i r).calls ≤ r := by
  intro r
  induction r with
  | zero => intro i; simp [retryGo]
  | succ n ih =>
    intro i
    simp only [retryGo]
    cases hfn : fn i with
    | ok a => simp
    | error e =>
      by_cases h : n = 0
      · simp [h]
      · simp only [h, if_false]
        exact Nat.succ_le_succ (ih (i + 1))

/-- With at least one allowed iteration the operation is called at least
once. -/
theorem retryGo_calls_pos (fn : Nat → Except ε α) (delay : Nat) :
    ∀ r i, 1 ≤ r → 1 ≤ (retryGo fn delay i r).calls := by
  intro r
  induction r with
  | zero => intro i h; omega
  | succ n ih =>
    intro i _
    simp only [retryGo]
    cases hfn : fn i with
    | ok a => simp
    | error e =>
      by_cases h : n = 0
      · simp [h]
      · simp only [h, if_false]
        omega

/-- Backoff waits are linear: the k-th recorded wait (0-indexed, starting at
loop index `i`) is `delay * (i + 1 + k)`. -/
theorem retryGo_waits (fn : Nat → Except ε α) (delay : Nat) :
    ∀ r i, (retryGo fn delay i r).waits =
      (List.range ((retryGo fn delay i r).calls - 1)).map (fun k => delay * (i + 1 + k)) := by
  intro r
  induction r with
  | zero => intro i; simp [retryGo]
  | succ n ih =>
    intro i
    simp only [retryGo]
    cases hfn : fn i with
    | ok a => simp
    | error e =>
      by_cases h : n = 0
      · simp [h]
      · simp only [h, if_false]
        have hpos := retryGo_calls_pos fn delay n (i + 1) (by omega)
        obtain ⟨c, hc⟩ : ∃ c, (retryGo fn delay (i + 1) n).calls = c + 1 :=
          ⟨(retryGo fn delay (i + 1) n).calls - 1, by omega⟩
        rw [ih (i + 1), hc]
        simp only [Nat.add_sub_cancel, List.range_succ_eq_map, List.map_cons, List.map_map]
        have hmap : List.map ((fun k => delay * (i + 1 + k)) ∘ Nat.succ) (List.range c)
            = List.map (fun k => delay * (i + 1 + 1 + k)) (List.range c) := by
          apply List.map_congr_left
          intro a _
          simp only [Function.comp_apply]
          congr 1
          omega
        rw [hmap]

/-- When every attempt fails, the loop re-raises the error of its final
attempt. -/
theorem retryGo_exhaust (fn : Nat → Except ε α) (delay : Nat) :
    ∀ r i, 1 ≤ r → (∀ k, k < r → ∃ e, fn (i + k) = Except.error e) →
      ∃ e, fn (i + (r - 1)) = Except.error e ∧
        (retryGo fn delay i r).result = some (Except.error e) := by
  intro r
  induction r with
  | zero => intro i h; omega
  | succ n ih =>
    intro i _ hall
    by_cases h : n = 0
    · subst h
      obtain ⟨e, he⟩ := hall 0 (by omega)
      refine ⟨e, by simpa using he, ?_⟩
      simp only [retryGo]
      rw [show i + 0 = i by omega] at he
      rw [he]
      simp
    · obtain ⟨e0, he0⟩ := hall 0 (by omega)
      rw [show i + 0 = i by omega] at he0
      obtain ⟨e, he, hres⟩ := ih (i + 1) (by omega)
        (fun k hk => by
          obtain ⟨e', he'⟩ := hall (k + 1) (by omega)
          exact ⟨e', by rw [show i + 1 + k = i + (k + 1) by omega]; exact he'⟩)
      refine ⟨e, ?_, ?_⟩
      · rw [show i + (n + 1 - 1) = i + 1 + (n - 1) by omega]
        exact he
      · simp only [retryGo, he0]
        simp only [h, if_false]
        exact hres

/-- C3: for every operation and every maxAttempts n ≥ 1 the retry executor
calls the operation at most n times; the recorded backoff waits are
`delay * i` for the 1-indexed failed attempts i = 1, 2, ... (one wait per
non-final call); an operation failing on attempts 1 and 2 and succeeding on
attempt 3 returns the success value after exactly the two waits `delay` and
`2 * delay`; and when all n attempts fail the error of attempt n is
re-raised unmodified. -/
theorem C3_retry_executor_semantics (ε α : Type) (fn : Nat → Except ε α) (n delay : Nat)
    (hn : 1 ≤ n) :
    ((retryAsync fn n delay).calls ≤ n)
    ∧ ((retryAsync fn n delay).waits =
        (List.range ((retryAsync fn n delay).calls - 1)).map (fun k => delay * (k + 1)))
    ∧ (∀ (e0 e1 : ε) (v : α), fn 0 = Except.error e0 → fn 1 = Except.error e1 →
        fn 2 = Except.ok v →
        retryAsync fn 3 delay = ⟨some (Except.ok v), [delay * 1, delay * 2], 3⟩)
    ∧ ((∀ k, k < n → ∃ e, fn k = Except.error e) →
        ∃ e, fn (n - 1) = Except.error e ∧
          (retryAsync fn n delay).result = some (Except.error e)) := by
  refine ⟨retryGo_calls_le fn delay n 0, ?_, ?_, ?_⟩
  · have hw := retryGo_waits fn delay n 0
    rw [retryAsync, hw]
    apply List.map_congr_left
    intro a _
    congr 1
    omega
  · intro e0 e1 v h0 h1 h2
    simp [retryAsync, retryGo, h0, h1, h2]
  · intro hall
    have := retryGo_exhaust fn delay n 0 hn
      (fun k hk => by simpa using hall k hk)
    simpa [retryAsync] using this

/-- Witness instantiating `C3_retry_executor_semantics` at a concrete
operation and bound. -/
theorem C3_retry_executor_semantics_witness :
    (1 ≤ 2) ∧
    (retryAsync (fun k => if k = 0 then (Except.error 0 : Except Nat Nat) else Except.ok 7)
      2 10).calls ≤ 2 :=
  ⟨by decide,
    (C3_retry_executor_semantics Nat Nat
      (fun k => if k = 0 then (Except.error 0 : Except Nat Nat) else Except.ok 7)
      2 10 (by decide)).1⟩

/-! ## Supporting lemmas for the argument parser -/

/-- Concurrency positivity is preserved by the whole argument loop: the only
assignment to `concurrency` is guarded by a positivity check. -/
theorem parseArgsGo_pos (args : List String) (c₀ : DLConfig) :
    ∀ c, 0 < c₀.concurrency → parseArgsGo args c₀ = ParseOutcome.ok c → 0 < c.concurrency := by
  induction args, c₀ using parseArgsGo.induct <;>
    intro c hpos heq <;>
    rw [parseArgsGo.eq_def] at heq <;>
    simp_all <;>
    (try split at heq) <;>
    (try simp_all) <;>
    (try subst heq) <;>
    (try simp_all) <;>
    (try omega)

/-- C10 counterexample: after a valid `-c 7`, a following invalid `-c 0`
silently keeps the previous value 7, not the default 5, so the claim's
"keeps the default of 5" fails on this argument list. -/
theorem C10_counterexample :
    parseArgs ["-c", "7", "-c", "0"] =
      ParseOutcome.ok { defaultDLConfig with concurrency := 7 }
    ∧ ¬ parseArgs ["-c", "7", "-c", "0"] = ParseOutcome.ok defaultDLConfig := by
  constructor
  · decide
  · decide

/-- C10 amended: whenever the parser returns a configuration its concurrency
is a positive integer; a `-c` whose following value parses to `NaN`, zero or
a negative number leaves the configuration exactly as it was before the
flag — which is the default 5 only when no earlier valid `-c` was seen. -/
theorem C10_concurrency_amended :
    (∀ args c, parseArgs args = ParseOutcome.ok c → 0 < c.concurrency)
    ∧ (∀ args c₀ c, 0 < c₀.concurrency → parseArgsGo args c₀ = ParseOutcome.ok c →
        0 < c.concurrency)
    ∧ (∀ v rest c₀, (∀ k, jsParseInt (some v) = some k → k ≤ 0) →
        parseArgsGo ("-c" :: v :: rest) c₀ = parseArgsGo rest c₀) := by
  refine ⟨?_, ?_, ?_⟩
  · intro args c h
    exact parseArgsGo_pos args defaultDLConfig c (by decide) h
  · intro args c₀ c hpos h
    exact parseArgsGo_pos args c₀ c hpos h
  · intro v rest c₀ hbad
    cases h : jsParseInt (some v) with
    | none =>
      rw [parseArgsGo.eq_def]
      simp +decide [h]
    | some k =>
      have hk := hbad k h
      rw [parseArgsGo.eq_def]
      simp +decide [h]
      intro h0
      exact absurd h0 (by omega)

/-- Witness instantiating `C10_concurrency_amended`: an invalid value after
the flag yields the default configuration, whose concurrency is positive. -/
theorem C10_concurrency_amended_witness : 0 < defaultDLConfig.concurrency :=
  (C10_concurrency_amended).1 ["-c", "0"] defaultDLConfig (by decide)

/-! ## Supporting lemma for the storage layout -/

/-- For ids of at most four characters, the source's `slice(-4)` on the
zero-prefixed id equals the specification-style zero-padding to four
digits. -/
theorem sliceLast4_pad (id : String) (h : id.length ≤ 4) :
    sliceLast4 ("0000" ++ id) = specPadTo4 id := by
  have hlen : id.data.length = id.length := rfl
  apply String.ext
  show ((("0000" ++ id).data.reverse.take 4).reverse) = (specPadTo4 id).data
  have hdata : ("0000" ++ id).data = List.replicate 4 '0' ++ id.data := by
    rw [String.data_append]
    rfl
  rw [hdata, List.reverse_append, List.reverse_replicate]
  rw [List.take_append_eq_append_take]
  rw [List.take_of_length_le (by simp [hlen, h])]
  rw [List.take_replicate]
  rw [List.reverse_append, List.reverse_replicate, List.reverse_reverse]
  rw [List.length_reverse, hlen]
  by_cases h4 : 4 ≤ id.length
  · have : id.length = 4 := by omega
    rw [this]
    simp [specPadTo4, h4]
  · have hm : min (4 - id.length) 4 = 4 - id.length := by omega
    rw [hm]
    simp only [specPadTo4, if_neg h4]
    rw [String.data_append]

/-- C9 counterexample: for the item named "Pow(x, n)" with slug "powx-n" the
final folder component is the sanitized lowercased display name
"pow-x-n", not the slug, so the produced folder differs from the claimed
`<id>_<difficulty>_<slug>` layout. -/
theorem C9_counterexample :
    problemFolderName ⟨"1", "Pow(x, n)", "powx-n", "Medium", false, ["math"]⟩ =
      "0001_Medium_pow-x-n"
    ∧ claimedProblemFolder ⟨"1", "Pow(x, n)", "powx-n", "Medium", false, ["math"]⟩ =
      "0001_Medium_powx-n"
    ∧ problemFolderName ⟨"1", "Pow(x, n)", "powx-n", "Medium", false, ["math"]⟩ ≠
      claimedProblemFolder ⟨"1", "Pow(x, n)", "powx-n", "Medium", false, ["math"]⟩ := by
  refine ⟨by decide, by decide, by decide⟩

/-- C9 amended: the storage directory is
`root / sanitized-first-tag / F` where
`F = slice4("0000" ++ id) ++ "_" ++ difficulty ++ "_" ++ lowercased
sanitized display name`; for ids of at most four digits the id component is
the full id zero-padded to four digits (longer ids are truncated to their
last four characters), and the final component derives from the display
name, not the slug. -/
theorem C9_storage_layout_amended (outputFolder : String) (p : Problem) :
    problemPathComponents outputFolder p =
      [outputFolder, sanitizeFolderName (firstTag p.tags),
        sliceLast4 ("0000" ++ p.id) ++ "_" ++ p.difficulty ++ "_" ++
          jsToLower (sanitizeFolderName p.name)]
    ∧ (p.id.length ≤ 4 → sliceLast4 ("0000" ++ p.id) = specPadTo4 p.id) :=
  ⟨rfl, fun h => sliceLast4_pad p.id h⟩

/-- Witness instantiating `C9_storage_layout_amended` at a concrete item. -/
theorem C9_storage_layout_amended_witness :
    ("1" : String).length ≤ 4 ∧ sliceLast4 ("0000" ++ "1") = specPadTo4 "1" :=
  ⟨by decide,
    (C9_storage_layout_amended "downloads"
      ⟨"1", "Two Sum", "two-sum", "Easy", false, ["array"]⟩).2 (by decide)⟩

/-- C7: an empty detail document for a non-locked item (reachable only with
session cookies present) is classified as a SESSION_EXPIRED error, which the
worker's catch block treats as the fatal abort, never as a per-item
failure record. -/
theorem C7_empty_content_is_fatal (isPremiumUser : Bool) :
    strStartsWith (classifyEmptyContent false isPremiumUser) sessionExpiredTag = true
    ∧ handleWorkerError (classifyEmptyContent false isPremiumUser) =
        WorkerErrorAction.abortRun
    ∧ handleWorkerError (classifyEmptyContent false isPremiumUser) ≠
        WorkerErrorAction.recordFailure := by
  cases isPremiumUser
  · exact ⟨by decide, by decide, by decide⟩
  · exact ⟨by decide, by decide, by decide⟩

/-- Witness instantiating `C7_empty_content_is_fatal`. -/
theorem C7_empty_content_is_fatal_witness :
    handleWorkerError (classifyEmptyContent false true) = WorkerErrorAction.abortRun :=
  (C7_empty_content_is_fatal true).2.1

/-- C4: the completion verdict of `downloadWorker` is true exactly when the
description succeeded and every requested sub-resource kind has its achieved
count equal to its total; every requested kind with a shortfall contributes
its human-readable reason string; and a kind that was not requested has no
effect on the verdict or on the reasons list. -/
theorem C4_completion_verdict (cfg : DLConfig) (st : DownloadStatus) :
    (isFullyComplete cfg st = true ↔
      st.descriptionSuccess = true
      ∧ (cfg.fetchTemplates = true → st.templatesCount = st.templatesTotal)
      ∧ (cfg.fetchOfficialSolution = true → st.officialCount = st.officialTotal)
      ∧ (cfg.fetchSolutions = true → st.communityCount = st.communityTotal))
    ∧ (st.descriptionSuccess = false →
        ("Description download failed" : String) ∈ failureReasons cfg st)
    ∧ (cfg.fetchTemplates = true → st.templatesCount < st.templatesTotal →
        ("Templates incomplete: " ++ toString st.templatesCount ++ "/" ++
          toString st.templatesTotal) ∈ failureReasons cfg st)
    ∧ (cfg.fetchOfficialSolution = true → st.officialCount < st.officialTotal →
        ("Official solution incomplete: " ++ toString st.officialCount ++ "/" ++
          toString st.officialTotal) ∈ failureReasons cfg st)
    ∧ (cfg.fetchSolutions = true → st.communityCount < st.communityTotal →
        ("Community solutions incomplete: " ++ toString st.communityCount ++ "/" ++
          toString st.communityTotal) ∈ failureReasons cfg st)
    ∧ (cfg.fetchTemplates = false → ∀ a b,
        isFullyComplete cfg { st with templatesCount := a, templatesTotal := b } =
          isFullyComplete cfg st
        ∧ failureReasons cfg { st with templatesCount := a, templatesTotal := b } =
          failureReasons cfg st)
    ∧ (cfg.fetchOfficialSolution = false → ∀ a b,
        isFullyComplete cfg { st with officialCount := a, officialTotal := b } =
          isFullyComplete cfg st
        ∧ failureReasons cfg { st with officialCount := a, officialTotal := b } =
          failureReasons cfg st)
    ∧ (cfg.fetchSolutions = false → ∀ a b,
        isFullyComplete cfg { st with communityCount := a, communityTotal := b } =
          isFullyComplete cfg st
        ∧ failureReasons cfg { st with communityCount := a, communityTotal := b } =
          failureReasons cfg st) := by
  refine ⟨?_, ?_, ?_, ?_, ?_, ?_, ?_, ?_⟩
  · cases hd : st.descriptionSuccess <;>
      cases hT : cfg.fetchTemplates <;>
      cases hO : cfg.fetchOfficialSolution <;>
      cases hS : cfg.fetchSolutions <;>
      simp [isFullyComplete, hd, hT, hO, hS, and_assoc]
  · intro hd
    simp [failureReasons, hd]
  · intro hT h
    simp [failureReasons, hT, h]
  · intro hO h
    simp [failureReasons, hO, h]
  · intro hS h
    simp [failureReasons, hS, h]
  · intro hT a b
    constructor <;> simp [isFullyComplete, failureReasons, hT]
  · intro hO a b
    constructor <;> simp [isFullyComplete, failureReasons, hO]
  · intro hS a b
    constructor <;> simp [isFullyComplete, failureReasons, hS]

/-- Witness instantiating `C4_completion_verdict` at a concrete status whose
description failed. -/
theorem C4_completion_verdict_witness :
    ("Description download failed" : String) ∈
      failureReasons defaultDLConfig ⟨false, 0, 0, 0, 0, 0, 0⟩ :=
  (C4_completion_verdict defaultDLConfig ⟨false, 0, 0, 0, 0, 0, 0⟩).2.1 rfl

/-! ## Supporting lemmas for the sub-resource counting loop -/

/-- Closed form of the language loop of `downloadProblem`: description and
totals are untouched, the template count grows by the number of variants
with template code, the community count by the number of community
successes, and the community total shrinks by the number of variants with no
authored answer. -/
theorem langLoop_eq (cfg : DLConfig) (slugP : Bool) :
    ∀ (langs : List LangFetch) (st : DownloadStatus),
      langs.foldl (langStep cfg slugP) st =
        ⟨st.descriptionSuccess,
         st.templatesCount + langs.countP (fun l => cfg.fetchTemplates && l.hasTemplateCode),
         st.templatesTotal,
         st.officialCount, st.officialTotal,
         st.communityCount + langs.countP (fun l =>
           (cfg.fetchSolutions && slugP) && decide (l.community = CommunityOutcome.success)),
         st.communityTotal - langs.countP (fun l =>
           (cfg.fetchSolutions && slugP) && decide (l.community = CommunityOutcome.noSolution))⟩ := by
  intro langs
  induction langs with
  | nil => intro st; simp
  | cons l ls ih =>
    intro st
    rw [List.foldl_cons, ih]
    cases hT : cfg.fetchTemplates && l.hasTemplateCode <;>
      cases hS : cfg.fetchSolutions && slugP <;>
      cases hc : l.community <;>
      simp [langStep, hT, hS, hc, List.countP_cons] <;>
      omega

/-- The official-solution block always leaves count equal to total: a missing
official solution resets the total to zero rather than recording a
shortfall. -/
theorem officialCounts_eq (cfg : DLConfig) (slugP officialAvailable : Bool) :
    (officialCounts cfg slugP officialAvailable).1 =
      (officialCounts cfg slugP officialAvailable).2 := by
  unfold officialCounts
  cases cfg.fetchOfficialSolution && slugP <;> cases officialAvailable <;> simp

/-- When no variant reported a fetch error, the community successes and the
variants with no authored answer partition the variant list. -/
theorem communityPartition (langs : List LangFetch)
    (herr : ∀ l ∈ langs, l.community ≠ CommunityOutcome.fetchError) :
    langs.countP (fun l => decide (l.community = CommunityOutcome.success)) +
      langs.countP (fun l => decide (l.community = CommunityOutcome.noSolution)) =
      langs.length := by
  have hcongr : langs.countP (fun l => decide (l.community = CommunityOutcome.noSolution)) =
      langs.countP (fun a =>
        decide (¬ (decide (a.community = CommunityOutcome.success) = true))) := by
    apply List.countP_congr
    intro a ha
    cases hc : a.community <;> simp [hc]
    exact absurd hc (herr a ha)
  have hlen := List.length_eq_countP_add_countP
    (fun l => decide (l.community = CommunityOutcome.success)) langs
  rw [hcongr]
  omega

/-- C8: a community variant with no authored answer decrements the
sub-resource's total rather than its achieved count and is never recorded as
a failure; when every variant is a success or a genuine no-answer, the
community count ends equal to the community total, and an item whose only
shortfall is absent community answers is still judged fully complete. -/
theorem C8_no_answer_decrements_total (cfg : DLConfig) (slugP officialAvailable : Bool)
    (langs : List LangFetch)
    (hs : cfg.fetchSolutions = true) (hsl : slugP = true)
    (herr : ∀ l ∈ langs, l.community ≠ CommunityOutcome.fetchError) :
    (∀ (st : DownloadStatus) (l : LangFetch), l.community = CommunityOutcome.noSolution →
       (langStep cfg slugP st l).communityCount = st.communityCount ∧
       (langStep cfg slugP st l).communityTotal = st.communityTotal - 1) ∧
    (subResourceStatus cfg slugP officialAvailable langs).communityCount =
      (subResourceStatus cfg slugP officialAvailable langs).communityTotal ∧
    ((cfg.fetchTemplates = true → ∀ l ∈ langs, l.hasTemplateCode = true) →
       isFullyComplete cfg (subResourceStatus cfg slugP officialAvailable langs) = true) := by
  subst hsl
  have hpart := communityPartition langs herr
  have hle := List.countP_le_length
    (fun l => decide (l.community = CommunityOutcome.noSolution)) (l := langs)
  have hmain : subResourceStatus cfg true officialAvailable langs =
      ⟨true,
       0 + langs.countP (fun l => cfg.fetchTemplates && l.hasTemplateCode),
       langs.length,
       (officialCounts cfg true officialAvailable).1,
       (officialCounts cfg true officialAvailable).2,
       0 + langs.countP (fun l =>
         (cfg.fetchSolutions && true) && decide (l.community = CommunityOutcome.success)),
       langs.length - langs.countP (fun l =>
         (cfg.fetchSolutions && true) && decide (l.community = CommunityOutcome.noSolution))⟩ := by
    unfold subResourceStatus
    rw [langLoop_eq]
  refine ⟨?_, ?_, ?_⟩
  · intro st l hc
    cases hT : cfg.fetchTemplates && l.hasTemplateCode <;>
      simp [langStep, hT, hc, hs]
  · rw [hmain]
    simp only [hs, Bool.true_and]
    simp only [Nat.zero_add]
    omega
  · intro htmp
    rw [hmain]
    simp only [isFullyComplete, hs, Bool.true_and]
    have hoff := officialCounts_eq cfg true officialAvailable
    cases hT : cfg.fetchTemplates with
    | false =>
      simp only [hT, Bool.false_and, Bool.not_false, Bool.true_or]
      simp [hoff]
      omega
    | true =>
      have hcount : langs.countP (fun l => cfg.fetchTemplates && l.hasTemplateCode) =
          langs.length := by
        rw [List.countP_eq_length]
        intro a ha
        simp [hT, htmp hT a ha]
      simp only [hT, Bool.true_and] at hcount ⊢
      simp [hcount, hoff]
      omega

/-- Witness instantiating `C8_no_answer_decrements_total` at a two-variant
item where one variant has no authored community answer. -/
theorem C8_no_answer_decrements_total_witness :
    (subResourceStatus defaultDLConfig true true
      [⟨"cpp", true, CommunityOutcome.success⟩,
       ⟨"java", true, CommunityOutcome.noSolution⟩]).communityCount =
    (subResourceStatus defaultDLConfig true true
      [⟨"cpp", true, CommunityOutcome.success⟩,
       ⟨"java", true, CommunityOutcome.noSolution⟩]).communityTotal :=
  (C8_no_answer_decrements_total defaultDLConfig true true
    [⟨"cpp", true, CommunityOutcome.success⟩,
     ⟨"java", true, CommunityOutcome.noSolution⟩]
    rfl rfl (by decide)).2.1

/-! ## Supporting lemmas for the image rewriter -/

/-- Every http(s) image occurrence of the document — duplicates included —
adds exactly one download attempt. -/
theorem imgScan_attempts (oracle : Nat → Bool) (relPath : String) :
    ∀ (doc : List MdSeg) (st : ImgScanState),
      (doc.foldl (imgScanStep oracle relPath) st).attempts =
        st.attempts + (httpImageUrls doc).length := by
  intro doc
  induction doc with
  | nil => intro st; simp [httpImageUrls]
  | cons seg rest ih =>
    intro st
    rw [List.foldl_cons]
    cases seg with
    | text s => simp [imgScanStep, httpImageUrls, List.filterMap_cons, ih]
    | image alt u =>
      cases hu : isHttpUrl u with
      | false => simp [imgScanStep, hu, httpImageUrls, List.filterMap_cons, ih]
      | true =>
        cases ho : oracle st.attempts <;>
          simp [imgScanStep, hu, ho, httpImageUrls, List.filterMap_cons, ih] <;>
          omega

/-- Membership in the URL map after a `Map.set`: the entry was already there
or it is the entry just written. -/
theorem mem_imapSet (m : List (String × String)) (k v : String) (uv : String × String)
    (h : uv ∈ imapSet m k v) : uv ∈ m ∨ uv = (k, v) := by
  unfold imapSet at h
  by_cases hp : m.any (fun p => p.1 == k)
  · rw [if_pos hp] at h
    obtain ⟨p, hpm, hpe⟩ := List.mem_map.mp h
    by_cases hk : p.1 == k
    · rw [if_pos hk] at hpe
      right
      exact hpe.symm
    · rw [if_neg hk] at hpe
      left
      exact hpe ▸ hpm
  · rw [if_neg hp] at h
    rcases List.mem_append.mp h with h1 | h2
    · exact Or.inl h1
    · right
      simpa using h2

/-- When every download succeeds, every entry of the URL map points at a
sequentially named local file under the relative prefix. -/
theorem imgScan_map_shape (oracle : Nat → Bool) (relPath : String)
    (hok : ∀ k, oracle k = true) :
    ∀ (doc : List MdSeg) (st : ImgScanState),
      (∀ uv ∈ st.imageMap, ∃ n : Nat, uv.2 = relPath ++ "/" ++ (toString n ++ extOf uv.1)) →
      ∀ uv ∈ (doc.foldl (imgScanStep oracle relPath) st).imageMap,
        ∃ n : Nat, uv.2 = relPath ++ "/" ++ (toString n ++ extOf uv.1) := by
  intro doc
  induction doc with
  | nil => intro st h; exact h
  | cons seg rest ih =>
    intro st h
    rw [List.foldl_cons]
    apply ih
    intro uv huv
    cases seg with
    | text s => exact h uv huv
    | image alt u =>
      by_cases hu : isHttpUrl u
      · simp only [imgScanStep, hu, if_true, hok st.attempts] at huv
        rcases mem_imapSet _ _ _ _ huv with hold | hnew
        · exact h uv hold
        · subst hnew
          exact ⟨st.imageIndex, rfl⟩
      · simp only [imgScanStep, hu] at huv
        simp at huv
        exact h uv huv

/-- C2 counterexample: a document whose two image references carry the
identical remote URL triggers two download attempts (and writes two files),
refuting "exactly one download attempt ... deduplicated before
downloading"; both occurrences are still rewritten to the identical local
path. -/
theorem C2_counterexample :
    (downloadImageFromMarkdown (fun _ => true) "./images"
      [MdSeg.image "a" "https://h/p.png", MdSeg.image "b" "https://h/p.png"]).2.attempts = 2
    ∧ ¬ (2 : Nat) = 1
    ∧ (downloadImageFromMarkdown (fun _ => true) "./images"
        [MdSeg.image "a" "https://h/p.png", MdSeg.image "b" "https://h/p.png"]).1 =
      [MdSeg.image "a" "./images/1.png", MdSeg.image "b" "./images/1.png"]
    ∧ (downloadImageFromMarkdown (fun _ => true) "./images"
        [MdSeg.image "a" "https://h/p.png", MdSeg.image "b" "https://h/p.png"]).2.filesWritten =
      ["0.png", "1.png"] := by
  refine ⟨by decide, by decide, by decide, by decide⟩

/-- C2 amended: every occurrence of a given remote URL is rewritten to the
identical target (that URL's final map entry, a sequentially named local
path whenever its downloads succeed), but one download attempt is made per
occurrence: the URL list is scanned and downloaded without
deduplication. -/
theorem C2_media_rewrite_amended (oracle : Nat → Bool) (relPath : String)
    (doc : List MdSeg) :
    ((downloadImageFromMarkdown oracle relPath doc).2.attempts =
      (httpImageUrls doc).length)
    ∧ ((downloadImageFromMarkdown oracle relPath doc).1 = doc.map (fun seg =>
        match seg with
        | MdSeg.image alt u =>
          MdSeg.image alt
            (imapGetD (downloadImageFromMarkdown oracle relPath doc).2.imageMap u u)
        | other => other))
    ∧ ((∀ k, oracle k = true) →
        ∀ uv ∈ (downloadImageFromMarkdown oracle relPath doc).2.imageMap,
          ∃ n : Nat, uv.2 = relPath ++ "/" ++ (toString n ++ extOf uv.1)) := by
  refine ⟨?_, rfl, ?_⟩
  · unfold downloadImageFromMarkdown
    rw [imgScan_attempts]
    simp
  · intro hok
    unfold downloadImageFromMarkdown
    apply imgScan_map_shape oracle relPath hok doc
    intro uv huv
    simp at huv

/-- Witness instantiating `C2_media_rewrite_amended` on a concrete document
with an all-success oracle. -/
theorem C2_media_rewrite_amended_witness :
    (downloadImageFromMarkdown (fun _ => true) "./images"
      [MdSeg.image "x" "https://h/q.png"]).2.attempts =
      (httpImageUrls [MdSeg.image "x" "https://h/q.png"]).length :=
  (C2_media_rewrite_amended (fun _ => true) "./images"
    [MdSeg.image "x" "https://h/q.png"]).1

/-! ## Supporting lemmas for the progress store -/

/-- Membership in the completed set after a `Set.add`. -/
theorem mem_setAdd (l : List String) (x y : String) :
    y ∈ setAdd l x ↔ y ∈ l ∨ y = x := by
  unfold setAdd
  by_cases hx : x ∈ l
  · rw [if_pos hx]
    constructor
    · exact Or.inl
    · rintro (h | rfl) <;> [exact h; exact hx]
  · rw [if_neg hx]
    simp

/-- Keys of the failed map after a delete. -/
theorem keys_mapDelete (m : List (String × FailureDetail)) (k y : String) :
    y ∈ (mapDelete m k).map Prod.fst ↔ y ∈ m.map Prod.fst ∧ y ≠ k := by
  simp only [mapDelete, List.mem_map, List.mem_filter]
  constructor
  · rintro ⟨p, ⟨hpm, hpk⟩, rfl⟩
    simp at hpk
    exact ⟨⟨p, hpm, rfl⟩, hpk⟩
  · rintro ⟨⟨p, hpm, rfl⟩, hyk⟩
    exact ⟨p, ⟨hpm, by simpa using hyk⟩, rfl⟩

/-- Keys of the failed map after a put. -/
theorem keys_mapPut (m : List (String × FailureDetail)) (k : String) (v : FailureDetail)
    (y : String) :
    y ∈ (mapPut m k v).map Prod.fst ↔ y ∈ m.map Prod.fst ∨ y = k := by
  unfold mapPut
  by_cases hp : m.any (fun p => p.1 == k)
  · rw [if_pos hp]
    have hkeys : (m.map (fun p => if p.1 == k then (k, v) else p)).map Prod.fst =
        m.map Prod.fst := by
      rw [List.map_map]
      apply List.map_congr_left
      intro p _
      by_cases hk : p.1 == k
      · simp only [Function.comp_apply, if_pos hk]
        simpa using (beq_iff_eq.mp hk).symm
      · simp only [Function.comp_apply, if_neg hk]
    rw [hkeys]
    constructor
    · exact Or.inl
    · rintro (h | rfl)
      · exact h
      · obtain ⟨p, hpm, hpk⟩ := List.any_eq_true.mp hp
        exact List.mem_map.mpr ⟨p, hpm, beq_iff_eq.mp hpk⟩
  · rw [if_neg hp]
    simp

/-- Success branch of `recordResult`, written out. -/
theorem recordResult_true_eq (st : ProgressData) (id : String) (d : FailureDetail) :
    recordResult st id true d =
      ⟨setAdd st.completed id, mapDelete st.failed id⟩ := by
  simp [recordResult]

/-- Failure branch of `recordResult`, written out. -/
theorem recordResult_false_eq (st : ProgressData) (id : String) (d : FailureDetail) :
    recordResult st id false d = ⟨st.completed, mapPut st.failed id d⟩ := by
  simp [recordResult]

/-- One bookkeeping step preserves the completed/failed disjointness,
provided the processed id is not already in the completed set. -/
theorem recordResult_disjoint (st : ProgressData) (id : String) (b : Bool)
    (d : FailureDetail) (hdis : progressDisjoint st) (hid : id ∉ st.completed) :
    progressDisjoint (recordResult st id b d) := by
  cases b with
  | true =>
    intro x hx hk
    rw [recordResult_true_eq] at hx hk
    rw [keys_mapDelete] at hk
    rcases (mem_setAdd st.completed id x).mp hx with hxc | rfl
    · exact hdis x hxc hk.1
    · exact hk.2 rfl
  | false =>
    intro x hx hk
    rw [recordResult_false_eq] at hx hk
    rw [keys_mapPut] at hk
    rcases hk with hk | rfl
    · exact hdis x hx hk
    · exact hid hx

/-- One bookkeeping step never adds a different id to the completed set. -/
theorem recordResult_completed_other (st : ProgressData) (id j : String) (b : Bool)
    (d : FailureDetail) (hj : j ∉ st.completed) (hne : j ≠ id) :
    j ∉ (recordResult st id b d).completed := by
  cases b with
  | true =>
    intro hmem
    rw [recordResult_true_eq] at hmem
    rcases (mem_setAdd st.completed id j).mp hmem with h | rfl
    · exact hj h
    · exact hne rfl
  | false =>
    intro hmem
    rw [recordResult_false_eq] at hmem
    exact hj hmem

/-- The serialized bookkeeping run preserves the disjointness invariant when
the processed ids are distinct and none is already completed. -/
theorem processAll_inv (outcome : String → Bool) (detail : String → FailureDetail) :
    ∀ (ids : List String) (st : ProgressData),
      progressDisjoint st → ids.Nodup → (∀ id ∈ ids, id ∉ st.completed) →
      progressDisjoint (processAll outcome detail ids st) := by
  intro ids
  induction ids with
  | nil => intro st h _ _; exact h
  | cons id restIds ih =>
    intro st hdis hnd hfresh
    unfold processAll
    rw [List.foldl_cons]
    have hid : id ∉ st.completed := hfresh id (List.mem_cons_self id restIds)
    apply ih
    · exact recordResult_disjoint st id (outcome id) (detail id) hdis hid
    · exact (List.nodup_cons.mp hnd).2
    · intro j hj
      exact recordResult_completed_other st id j (outcome id) (detail id)
        (hfresh j (List.mem_cons_of_mem id hj))
        (fun heq => (List.nodup_cons.mp hnd).1 (heq ▸ hj))

/-- C5: after every processed item of a run the progress store keeps each id
in at most one of the completed set and the failed map; an item that fully
succeeds is removed from the failed map by that very step; and an id already
in the completed set at the start of a run never passes the dispatch
filter. -/
theorem C5_progress_store_invariants (outcome : String → Bool)
    (detail : String → FailureDetail) (st₀ : ProgressData) (ids : List String)
    (hdis : progressDisjoint st₀) (hnd : ids.Nodup)
    (hfresh : ∀ id ∈ ids, id ∉ st₀.completed) :
    (∀ pre post, ids = pre ++ post →
        progressDisjoint (processAll outcome detail pre st₀))
    ∧ (∀ (st : ProgressData) (id : String) (d : FailureDetail),
        id ∉ (recordResult st id true d).failed.map Prod.fst)
    ∧ (∀ (problems : List Problem) (prem : Bool) (comp : List String) (p : Problem),
        p ∈ problemsToDownload problems prem comp → p.id ∉ comp) := by
  refine ⟨?_, ?_, ?_⟩
  · intro pre post heq
    subst heq
    apply processAll_inv outcome detail pre st₀ hdis
    · exact hnd.of_append_left
    · intro id hid
      exact hfresh id (List.mem_append_left post hid)
  · intro st id d
    rw [recordResult_true_eq, keys_mapDelete]
    rintro ⟨_, hne⟩
    exact hne rfl
  · intro problems prem comp p hp
    have hcond := (List.mem_filter.mp hp).2
    intro hmem
    simp at hcond
    exact hcond.2 hmem

/-- Witness instantiating `C5_progress_store_invariants` on a one-item
run starting from the empty store. -/
theorem C5_progress_store_invariants_witness :
    progressDisjoint (processAll (fun _ => true) (fun _ => ⟨"n", "s", [], "t"⟩)
      ["1"] ⟨[], []⟩) :=
  (C5_progress_store_invariants (fun _ => true) (fun _ => ⟨"n", "s", [], "t"⟩)
    ⟨[], []⟩ ["1"] (by decide) (by simp) (by decide)).1 ["1"] [] (by simp)

/-! ## Supporting lemmas for the abort scheduler -/

/-- A single scheduling step only appends to the persisted list. -/
theorem chunkStep_persisted_mono (ws : List WorkerProg) (s : RunState) (j : Nat)
    (x : String) (hx : x ∈ s.persisted) : x ∈ (chunkStep ws s j).2.persisted := by
  unfold chunkStep
  split
  · exact hx
  · split
    · exact hx
    · split
      · exact hx
      · rename_i w st rest heq
        cases st <;> simp [execStep, hx]

/-- After the process has exited, a scheduling step does nothing. -/
theorem chunkStep_exited (ws : List WorkerProg) (s : RunState) (j : Nat)
    (h : s.exited = true) : chunkStep ws s j = (ws, s) := by
  unfold chunkStep
  rw [if_pos h]

/-- The fold of scheduling steps only appends to the persisted list. -/
theorem chunkFold_persisted_mono :
    ∀ (sched : List Nat) (p : List WorkerProg × RunState) (x : String),
      x ∈ p.2.persisted →
      x ∈ ((sched.foldl (fun q j => chunkStep q.1 q.2 j) p)).2.persisted := by
  intro sched
  induction sched with
  | nil => intro p x hx; exact hx
  | cons j rest ih =>
    intro p x hx
    rw [List.foldl_cons]
    exact ih _ x (chunkStep_persisted_mono p.1 p.2 j x hx)

/-- A whole chunk execution only appends to the persisted list. -/
theorem runChunk_persisted_mono (ws : List WorkerProg) (sched : List Nat)
    (s : RunState) (x : String) (hx : x ∈ s.persisted) :
    x ∈ (runChunk ws sched s).persisted :=
  chunkFold_persisted_mono sched (ws, s) x hx

/-- Once the process has exited, the chunk loop dispatches nothing further:
the run state is final. -/
theorem runChunks_exited (chunks : List (List WorkerProg × List Nat)) :
    ∀ s : RunState, s.exited = true → runChunks chunks s = s := by
  induction chunks with
  | nil => intro s _; rfl
  | cons c rest ih =>
    intro s h
    unfold runChunks
    rw [List.foldl_cons, if_pos h]
    exact ih s h

/-- The chunk loop only appends to the persisted list. -/
theorem runChunks_persisted_mono (chunks : List (List WorkerProg × List Nat)) :
    ∀ (s : RunState) (x : String), x ∈ s.persisted →
      x ∈ (runChunks chunks s).persisted := by
  induction chunks with
  | nil => intro s x hx; exact hx
  | cons c rest ih =>
    intro s x hx
    unfold runChunks
    rw [List.foldl_cons]
    by_cases he : s.exited = true
    · rw [if_pos he]
      exact ih s x hx
    · rw [if_neg he]
      apply ih
      exact runChunk_persisted_mono c.1 c.2 _ x hx

/-- C1 counterexample: in the chunk [A (normal), B (AuthError)] under the
schedule that runs B's three actions first, B persists the snapshot and
calls `process.exit(1)`; worker A — dispatched in the same chunk — never
persists its result, refuting "every other item already dispatched in that
same chunk still finishes and persists".  (No further chunk is dispatched,
which is the part of the claim that does hold.) -/
theorem C1_counterexample :
    (runChunks [([normalWorker "A", fatalWorker "B"], [1, 1, 1, 0, 0])] initRunState) =
      ⟨[], true, true, 1⟩
    ∧ ¬ ("A" ∈ (runChunks [([normalWorker "A", fatalWorker "B"], [1, 1, 1, 0, 0])]
        initRunState).persisted) := by
  refine ⟨by decide, by decide⟩

/-- C1 amended: a SESSION_EXPIRED AuthError makes the failing worker persist
the progress snapshot and exit the process at once; results persisted before
the exit are retained, and once the process has exited no further scheduling
step or chunk ever runs — but an item dispatched in the same chunk persists
its individual result only if its persist action was scheduled before the
exit; it is not guaranteed to finish. -/
theorem C1_abort_semantics_amended (chunks : List (List WorkerProg × List Nat))
    (s : RunState) :
    (∀ x ∈ s.persisted, x ∈ (runChunks chunks s).persisted)
    ∧ (s.exited = true → runChunks chunks s = s) :=
  ⟨fun x hx => runChunks_persisted_mono chunks s x hx,
   fun h => runChunks_exited chunks s h⟩

/-- Witness instantiating `C1_abort_semantics_amended` after an abort. -/
theorem C1_abort_semantics_amended_witness :
    runChunks [([normalWorker "C"], [0, 0])] ⟨["A"], true, true, 1⟩ =
      ⟨["A"], true, true, 1⟩ :=
  (C1_abort_semantics_amended [([normalWorker "C"], [0, 0])]
    ⟨["A"], true, true, 1⟩).2 rfl

/-! ## Supporting lemma for the transcoder's block extraction -/

/-- The blocks collected by the extraction pass are exactly the fenced
cleaned contents of the matched blocks, in original occurrence order. -/
theorem extract_blocks_eq :
    ∀ (fuel k : Nat) (s : List Char),
      (extractPreGo fuel k s).2 = (preContentsGo fuel s).map fenceBlock := by
  intro fuel
  induction fuel with
  | zero => intro k s; simp [extractPreGo, preContentsGo]
  | succ n ih =>
    intro k s
    cases s with
    | nil => simp [extractPreGo, preContentsGo]
    | cons c rest =>
      simp only [extractPreGo, preContentsGo]
      cases h : mPreMatch (c :: rest) with
      | some pr =>
        cases pr with
        | mk content rem => simp [h, ih]
      | none => simp [h, ih]

/-- C6 counterexample: a code block containing the tag pair around "b" comes
out of the conversion with that tag stripped — the extracted text is cleaned
by the strong/em unwrapping AND by the strip of every remaining tag
(line 1110), so the block content does not survive verbatim as the claim
states. -/
theorem C6_counterexample :
    convertHtmlToMarkdown [] "<pre>a<u>b</u>c</pre>" = "```\nabc\n```"
    ∧ ¬ convertHtmlToMarkdown [] "<pre>a<u>b</u>c</pre>" = "```\na<u>b</u>c\n```"
    ∧ preContents "<pre>a<u>b</u>c</pre>" = [("a<u>b</u>c".data)] := by
  refine ⟨by decide, by decide, by decide⟩

/-- C6 amended: every pre/code block is extracted into a placeholder token
before any other rewriting and the fenced blocks are re-inserted at the very
end, in original occurrence order; inside the extracted text the strong and
em wrappers are unwrapped and then every remaining tag is stripped (so only
the non-tag text of each block survives verbatim). -/
theorem C6_code_block_extraction_amended (im : List (String × String)) (html : String) :
    convertHtmlToMarkdown im html =
      reinsertGo (extractPre html).2 0 ⟨middlePipeline im (extractPre html).1⟩
    ∧ (extractPre html).2 = (preContents html).map fenceBlock
    ∧ (∀ content : List Char,
        fenceBlock content = "```\n" ++ String.mk (cleanPre content) ++ "\n```") :=
  ⟨rfl, extract_blocks_eq html.data.length 0 html.data, fun _ => rfl⟩
